import Mathlib

/-!
# Verification of the agent-based calculator (CalculadoraAgentes.py)

A shallow embedding of the arithmetic-expression engine of the repository:
the tokenizer (`tokenize`), the precedence evaluator (`evaluate_expression`,
`handle_parentheses`, `evaluate_operator`), the message broker
(`send_message`, `get_messages_for`), the operation agents
(`perform_operation`, `step` = `agent_step`, the per-agent invocation
counters), and the model-level operations (`calculate`, `get_statistics`,
`reset_statistics`).

Modelling choices:
* Python floats are modelled by the exact rational type `Q`.  Every numeric
  computation appearing in the verified properties is exact
  integer/rational arithmetic, where `float` and `Q` agree.
  `operator.pow` is modelled by `rat_pow`, which
  computes the power for integral exponents (the only exponents a rational
  semantics can represent) and fails otherwise.
* Token lists are modelled by `Tok`: a token is either a numeric value
  (`Tok.num`, covering numeral tokens and the `str(result)` tokens the
  evaluator splices back in) or a non-numeric string token (`Tok.sym`,
  covering operators, parentheses, and any string `float()` would reject).
* Python exceptions are modelled by `Except CalcError`.
* The recursive evaluator and its loops are given explicit fuel; running
  out of fuel yields the artificial error `CalcError.outOfFuel`.  All
  concrete evaluations below are checked by computation, so the fuel used
  by `process_expression` is demonstrably sufficient for them.
* The session log (`add_log`, free-form display strings) is not modelled:
  no verified property mentions it, and it influences nothing else.
-/

namespace CalculadoraAgentes

/-! ## Exact numbers

Python floats are modelled by an executable exact rational type `Q`:
a numerator/denominator pair kept in lowest terms by every operation, so
that structural equality is value equality on every number the engine can
produce, and every computation reduces inside the kernel (Mathlib's `Rat`
primitives do not).  All arithmetic appearing in the verified properties
is exact, so `float` and `Q` agree on it. -/

/-- Euclidean gcd with explicit fuel (`fuel > a` always suffices). -/
def gcd_fuel : Nat → Nat → Nat → Nat
  | 0, a, _ => a
  | f + 1, a, b => if a = 0 then b else gcd_fuel f (b % a) a

/-- Greatest common divisor, computable by kernel reduction. -/
def my_gcd (a b : Nat) : Nat := gcd_fuel (a + 1) a b

/-- An exact rational: numerator and (positive) denominator.  Every
constructor used by the engine produces the lowest-terms representative,
so `Q` values are compared structurally. -/
structure Q where
  num : Int
  den : Nat
deriving DecidableEq

instance (n : Nat) : OfNat Q n := ⟨⟨(n : Int), 1⟩⟩

instance : Neg Q := ⟨fun a => ⟨-a.num, a.den⟩⟩

/-- Build the lowest-terms rational `n / d` (`d ≠ 0` at every use). -/
def q_norm (n : Int) (d : Nat) : Q :=
  let g := my_gcd n.natAbs d
  ⟨n / (g : Int), d / g⟩

/-- `operator.add`. -/
def q_add (a b : Q) : Q := q_norm (a.num * b.den + b.num * a.den) (a.den * b.den)

/-- `operator.sub`. -/
def q_sub (a b : Q) : Q := q_norm (a.num * b.den - b.num * a.den) (a.den * b.den)

/-- `operator.mul`. -/
def q_mul (a b : Q) : Q := q_norm (a.num * b.num) (a.den * b.den)

/-- Reciprocal (used only on non-zero values). -/
def q_inv (a : Q) : Q :=
  if 0 ≤ a.num then ⟨(a.den : Int), a.num.natAbs⟩ else ⟨-(a.den : Int), a.num.natAbs⟩

/-- True division `a / b` (used only with `b ≠ 0`, as `safe_div` checks). -/
def q_div (a b : Q) : Q := q_mul a (q_inv b)

/-- `a ** n` for a natural exponent. -/
def q_pow (a : Q) : Nat → Q
  | 0 => 1
  | n + 1 => q_mul (q_pow a n) a

/-! ## Tokenizer

`IOAgent.tokenize` uses `re.findall` with the pattern
`(\d+\.?\d*|\+|\-|\*\*|\*|\/|\(|\))`.  `findall` tries the alternatives in
order at each position, and *skips* any character at which no alternative
matches.  `scan_aux` is that scanner; the fuel is the length of the input,
which suffices since every step consumes at least one character. -/

/-- The longest span of decimal digits at the front of a character list,
together with the rest (the greedy `\d+` / `\d*` matching). -/
def span_digits : List Char → List Char × List Char
  | [] => ([], [])
  | c :: cs =>
    if c.isDigit then
      let p := span_digits cs
      (c :: p.1, p.2)
    else ([], c :: cs)

/-- Greedy match of the regex alternative `\d+\.?\d*` at the front of the
input: at least one digit, an optional dot, then any digits.  Returns the
matched numeral string and the remaining characters. -/
def match_number : List Char → Option (String × List Char)
  | [] => none
  | c :: cs =>
    if c.isDigit then
      let p := span_digits cs
      match p.2 with
      | '.' :: r2 =>
        let q := span_digits r2
        some (String.mk (c :: p.1 ++ '.' :: q.1), q.2)
      | _ => some (String.mk (c :: p.1), p.2)
    else none

/-- One `re.findall` scan: number first (so `**` is tried before `*` among
the remaining alternatives, exactly as in the source pattern), and any
character matching no alternative is silently skipped. -/
def scan_aux : Nat → List Char → List String
  | 0, _ => []
  | _ + 1, [] => []
  | f + 1, c :: cs =>
    match match_number (c :: cs) with
    | some p => p.1 :: scan_aux f p.2
    | none =>
      if c = '*' then
        match cs with
        | c2 :: cs2 =>
          if c2 = '*' then "**" :: scan_aux f cs2
          else "*" :: scan_aux f (c2 :: cs2)
        | [] => "*" :: scan_aux f []
      else if c = '+' then "+" :: scan_aux f cs
      else if c = '-' then "-" :: scan_aux f cs
      else if c = '/' then "/" :: scan_aux f cs
      else if c = '(' then "(" :: scan_aux f cs
      else if c = ')' then ")" :: scan_aux f cs
      else scan_aux f cs

/-- `re.findall(pattern, expression)` of the source. -/
def scan_tokens (cs : List Char) : List String := scan_aux cs.length cs

/-- Python `token.replace('.', '').isdigit()`: after removing dots the
string is non-empty and all digits. -/
def is_numeric_tok (t : String) : Bool :=
  let cs := t.toList.filter (fun c => c != '.')
  !cs.isEmpty && cs.all Char.isDigit

/-- Membership test `tokens[i-1] in ['(', '+', '-', '*', '/', '**']`. -/
def is_op_or_lparen (t : String) : Bool :=
  t == "(" || t == "+" || t == "-" || t == "*" || t == "/" || t == "**"

/-- The unary-minus folding loop of `IOAgent.tokenize`.  The first argument
is the token preceding the current position in the *original* list
(`none` at position 0): a `-` there whose predecessor is an operator or
`(` (or which is first) and whose successor is purely numeric is folded
into the successor as a negative literal, and the scan continues after the
successor. -/
def fold_neg_aux : Option String → List String → List String
  | _, [] => []
  | _, [t] => [t]
  | prev, t :: n :: rest2 =>
    if t == "-" && prev.elim true is_op_or_lparen && is_numeric_tok n then
      ("-" ++ n) :: fold_neg_aux (some n) rest2
    else t :: fold_neg_aux (some t) (n :: rest2)

/-- `IOAgent.tokenize`: regex scan followed by the negative-literal fold.
It is a total function: the source never raises during tokenization. -/
def tokenize (expression : String) : List String :=
  fold_neg_aux none (scan_tokens expression.toList)

/-! ## Numeral parsing (`float(token)`) and the token value type -/

/-- Decimal value of a digit list. -/
def digits_val (cs : List Char) : Nat :=
  cs.foldl (fun n c => n * 10 + (c.toNat - 48)) 0

/-- Python `float` on an unsigned numeral `digits [ '.' digits ]` (the only
unsigned shapes the tokenizer and the fold can produce); `none` on any
other string, as `float()` raises `ValueError` there. -/
def parse_num_chars (cs : List Char) : Option Q :=
  let ip := cs.takeWhile Char.isDigit
  let r := cs.dropWhile Char.isDigit
  match r with
  | [] => if ip.isEmpty then none else some ⟨(digits_val ip : Int), 1⟩
  | '.' :: frac =>
    if frac.all Char.isDigit && !(ip.isEmpty && frac.isEmpty) then
      some (q_norm ((digits_val ip * 10 ^ frac.length + digits_val frac : Nat) : Int)
        (10 ^ frac.length))
    else none
  | _ => none

/-- Python `float(token)`, allowing one optional leading minus sign. -/
def parse_num (t : String) : Option Q :=
  match t.toList with
  | '-' :: cs => (parse_num_chars cs).map (fun v => -v)
  | cs => parse_num_chars cs

/-- A token as the evaluator sees it: a numeric value (a numeral string, or
a `str(result)` spliced in by a reduction step), or a non-numeric string
(operator, parenthesis, or anything `float()` rejects). -/
inductive Tok where
  | num (v : Q)
  | sym (s : String)
deriving DecidableEq

/-- The seven non-numeric token strings the scanner can emit. -/
def is_symbol_tok (t : String) : Bool :=
  t == "+" || t == "-" || t == "*" || t == "/" || t == "**" || t == "(" || t == ")"

/-- Classify a string token for the evaluator. -/
def to_tok (t : String) : Tok :=
  if is_symbol_tok t then .sym t
  else
    match parse_num t with
    | some v => .num v
    | none => .sym t

/-- `float(token)` as used by the evaluator; fails on non-numeric tokens. -/
def num_val : Tok → Option Q
  | .num v => some v
  | .sym _ => none

/-! ## Messages and the broker state -/

/-- `Message.content`: an operation request `{'operands': (a, b)}` or a
reply `{'result': v}`. -/
inductive MsgContent where
  | operands (a b : Q)
  | result (v : Q)
deriving DecidableEq

/-- A broker `Message` (the unused `timestamp` field is dropped). -/
structure Message where
  sender : String
  receiver : String
  content : MsgContent
  msgType : String
deriving DecidableEq

/-- The mutable state of a `CalculatorModel`: the broker's pending queue
and history (`log_enabled` is always `True`), and the
`operations_performed` counter of each of the five operation agents. -/
structure CalcState where
  queue : List Message
  history : List Message
  sumaOps : Nat
  restaOps : Nat
  multOps : Nat
  divOps : Nat
  potOps : Nat
deriving DecidableEq

/-- A freshly constructed `CalculatorModel`. -/
def init_state : CalcState := ⟨[], [], 0, 0, 0, 0, 0⟩

/-- `MessageBroker.send_message`: append to the queue and (since logging is
always enabled) to the history. -/
def send_message (m : Message) (s : CalcState) : CalcState :=
  { s with queue := s.queue ++ [m], history := s.history ++ [m] }

/-- `MessageBroker.get_messages_for`: return and remove all queued messages
addressed to the given agent, preserving order. -/
def get_messages_for (agentId : String) (s : CalcState) :
    List Message × CalcState :=
  (s.queue.filter (fun m => m.receiver == agentId),
   { s with queue := s.queue.filter (fun m => m.receiver != agentId) })

/-! ## Errors -/

/-- The exceptions the engine can raise, by site. -/
inductive CalcError where
  /-- `ValueError("División por cero no permitida")` from the division
  agent's `safe_div`. -/
  | divisionByZero
  /-- `operator.pow` at an exponent a rational semantics cannot evaluate. -/
  | nonIntegerPower
  /-- `ValueError("Paréntesis no balanceados")`. -/
  | unbalancedParens
  /-- `ValueError(f"Operador {op} en posición inválida")`. -/
  | invalidOperatorPosition (op : String)
  /-- `ValueError` from `evaluate_expression` when more than one token
  remains after all passes. -/
  | residualTokens
  /-- `ValueError(f"Operador no soportado: {op}")`. -/
  | unsupportedOperator (op : String)
  /-- `RuntimeError` when no reply message is found. -/
  | noAgentResponse (agentId : String)
  /-- `ValueError` from `float()` applied to a non-numeric token. -/
  | notANumber
  /-- `KeyError` on a message whose content lacks the expected key. -/
  | badMessageContent
  /-- Artificial: evaluation fuel exhausted (never hit by the concrete
  evaluations verified below). -/
  | outOfFuel
deriving DecidableEq

/-! ## Operation agents -/

/-- `operator.pow` on rationals: defined for integral exponents, raising
for a negative power of zero (as Python does); a non-integral exponent is
modelled as a failure (rational semantics cannot represent it). -/
def rat_pow (a b : Q) : Except CalcError Q :=
  if b.den = 1 then
    if 0 ≤ b.num then .ok (q_pow a b.num.toNat)
    else if a = 0 then .error .divisionByZero
    else .ok (q_inv (q_pow a (-b.num).toNat))
  else .error .nonIntegerPower

/-- The `operation_func` of the agent with the given `unique_id`:
`operator.add`, `operator.sub`, `operator.mul`, `safe_div` (which raises on
a zero divisor), and `operator.pow`. -/
def agent_func (agentId : String) (a b : Q) : Except CalcError Q :=
  if agentId == "suma_agent" then .ok (q_add a b)
  else if agentId == "resta_agent" then .ok (q_sub a b)
  else if agentId == "multiplicacion_agent" then .ok (q_mul a b)
  else if agentId == "division_agent" then
    if b = 0 then .error .divisionByZero else .ok (q_div a b)
  else if agentId == "potencia_agent" then rat_pow a b
  else .error (.unsupportedOperator agentId)

/-- Increment `operations_performed` of the named agent. -/
def bump_counter (agentId : String) (s : CalcState) : CalcState :=
  if agentId == "suma_agent" then { s with sumaOps := s.sumaOps + 1 }
  else if agentId == "resta_agent" then { s with restaOps := s.restaOps + 1 }
  else if agentId == "multiplicacion_agent" then { s with multOps := s.multOps + 1 }
  else if agentId == "division_agent" then { s with divOps := s.divOps + 1 }
  else if agentId == "potencia_agent" then { s with potOps := s.potOps + 1 }
  else s

/-- `OperationAgent.perform_operation`: apply the agent's function; on
success increment that agent's counter, on failure re-raise leaving the
counter untouched. -/
def perform_operation (agentId : String) (a b : Q) (s : CalcState) :
    Except CalcError Q × CalcState :=
  match agent_func agentId a b with
  | .ok r => (.ok r, bump_counter agentId s)
  | .error e => (.error e, s)

/-- The body of `OperationAgent.step`: process the drained messages in
order; for each operation message, perform the operation and send the
result back to the sender; an exception aborts the loop. -/
def process_msgs (agentId : String) :
    List Message → CalcState → Except CalcError Unit × CalcState
  | [], s => (.ok (), s)
  | m :: rest, s =>
    if m.msgType == "operation" then
      match m.content with
      | .operands a b =>
        match perform_operation agentId a b s with
        | (.ok r, s1) =>
          process_msgs agentId rest
            (send_message ⟨agentId, m.sender, .result r, "result"⟩ s1)
        | (.error e, s1) => (.error e, s1)
      | .result _ => (.error .badMessageContent, s)
    else process_msgs agentId rest s

/-- `OperationAgent.step`: drain this agent's messages, then process them. -/
def agent_step (agentId : String) (s : CalcState) :
    Except CalcError Unit × CalcState :=
  let p := get_messages_for agentId s
  process_msgs agentId p.1 p.2

/-! ## The IO agent (coordinator) -/

/-- `IOAgent.operator_map`. -/
def operator_map (op : String) : Option String :=
  if op == "+" then some "suma_agent"
  else if op == "-" then some "resta_agent"
  else if op == "*" then some "multiplicacion_agent"
  else if op == "/" then some "division_agent"
  else if op == "**" then some "potencia_agent"
  else none

/-- `IOAgent.request_operation`: look up the agent, send it an operation
message, step it synchronously, then drain the replies addressed to
`io_agent`; a missing reply is a `RuntimeError`. -/
def request_operation (op : String) (a b : Q) (s : CalcState) :
    Except CalcError Q × CalcState :=
  match operator_map op with
  | none => (.error (.unsupportedOperator op), s)
  | some agentId =>
    let s1 := send_message ⟨"io_agent", agentId, .operands a b, "operation"⟩ s
    match agent_step agentId s1 with
    | (.error e, s2) => (.error e, s2)
    | (.ok _, s2) =>
      let p := get_messages_for "io_agent" s2
      match p.1 with
      | [] => (.error (.noAgentResponse agentId), p.2)
      | m :: _ =>
        match m.content with
        | .result v => (.ok v, p.2)
        | .operands _ _ => (.error .badMessageContent, p.2)

/-- `IOAgent.evaluate_operator`: scan left to right from index `i`; at an
operator of the current tier, check it is neither first nor last, read the
numeric neighbours, dispatch, and replace the three-token window with the
result *without advancing the index*.  The fuel bounds the loop
iterations; `tokens.length + 1` at entry always suffices, since every
iteration either advances the index or shrinks the list by two. -/
def evaluate_operator (ops : List String) :
    Nat → Nat → List Tok → CalcState → Except CalcError (List Tok) × CalcState
  | 0, _, _, s => (.error .outOfFuel, s)
  | f + 1, i, tokens, s =>
    match tokens[i]? with
    | none => (.ok tokens, s)
    | some t =>
      match t with
      | .sym op =>
        if op ∈ ops then
          if i == 0 || i == tokens.length - 1 then
            (.error (.invalidOperatorPosition op), s)
          else
            match tokens[i - 1]?.bind num_val,
                  tokens[i + 1]?.bind num_val with
            | some a, some b =>
              match request_operation op a b s with
              | (.ok r, s1) =>
                evaluate_operator ops f i
                  (tokens.take (i - 1) ++ .num r :: tokens.drop (i + 2)) s1
              | (.error e, s1) => (.error e, s1)
            | _, _ => (.error .notANumber, s)
        else evaluate_operator ops f (i + 1) tokens s
      | .num _ => evaluate_operator ops f (i + 1) tokens s

/-- Index of the last `(` in the token list, as computed by the first loop
of `handle_parentheses`. -/
def last_lparen_idx : List Tok → Option Nat
  | [] => none
  | t :: rest =>
    match last_lparen_idx rest with
    | some j => some (j + 1)
    | none => if t = Tok.sym "(" then some 0 else none

/-- Index of the first `)` strictly after `start`, as computed by the
second loop of `handle_parentheses`. -/
def first_rparen_after (tokens : List Tok) (start : Nat) : Option Nat :=
  match (tokens.drop (start + 1)).findIdx? (fun t => decide (t = Tok.sym ")")) with
  | some k => some (start + 1 + k)
  | none => none

/-- One precedence tier of `evaluate_expression`: if the previous pass
raised, the exception propagates; otherwise scan the surviving token list
with `evaluate_operator` for this tier (the fuel `length + 1` always
suffices for the scan, see `evaluate_operator`). -/
def tier_step (ops : List String)
    (p : Except CalcError (List Tok) × CalcState) :
    Except CalcError (List Tok) × CalcState :=
  match p with
  | (.error e, s) => (.error e, s)
  | (.ok t, s) => evaluate_operator ops (t.length + 1) 0 t s

/-- The final statements of `evaluate_expression`: exactly one token must
remain, and it is converted with `float()`. -/
def final_step (p : Except CalcError (List Tok) × CalcState) :
    Except CalcError Q × CalcState :=
  match p with
  | (.error e, s) => (.error e, s)
  | (.ok [t], s) =>
    match num_val t with
    | some v => (.ok v, s)
    | none => (.error .notANumber, s)
  | (.ok _, s) => (.error .residualTokens, s)

/-- The mutually recursive pair `evaluate_expression` / `handle_parentheses`
packaged as one structural recursion on the fuel, so that it reduces by
computation.  The first component is `evaluate_expression` at the given
fuel, the second `handle_parentheses`; every recursive call (the
parenthesis loop iteration and the recursive sub-expression evaluation)
runs at one unit less fuel. -/
def eval_funs : Nat →
    (List Tok → CalcState → Except CalcError Q × CalcState) ×
    (List Tok → CalcState → Except CalcError (List Tok) × CalcState)
  | 0 => (fun _ s => (.error .outOfFuel, s), fun _ s => (.error .outOfFuel, s))
  | f + 1 =>
    (fun tokens s =>
      final_step (tier_step ["+", "-"] (tier_step ["*", "/"]
        (tier_step ["**"] ((eval_funs f).2 tokens s)))),
     fun tokens s =>
      match last_lparen_idx tokens with
      | none => (.ok tokens, s)
      | some start =>
        match first_rparen_after tokens start with
        | none => (.error .unbalancedParens, s)
        | some stop =>
          match (eval_funs f).1 ((tokens.drop (start + 1)).take (stop - start - 1)) s with
          | (.error e, s1) => (.error e, s1)
          | (.ok v, s1) =>
            (eval_funs f).2 (tokens.take start ++ .num v :: tokens.drop (stop + 1)) s1)

/-- `IOAgent.evaluate_expression`: resolve parentheses, then the three
tiers in order `**`, `* /`, `+ -`; exactly one numeric token must remain. -/
def evaluate_expression (f : Nat) :
    List Tok → CalcState → Except CalcError Q × CalcState :=
  (eval_funs f).1

/-- `IOAgent.handle_parentheses`: while a `(` remains, take the last `(`,
find the first `)` after it (error if none), recursively evaluate the
enclosed sub-sequence, and splice the numeric result in place of the whole
group. -/
def handle_parentheses (f : Nat) :
    List Tok → CalcState → Except CalcError (List Tok) × CalcState :=
  (eval_funs f).2

/-! ## Model-level operations -/

/-- The space stripping `expression.replace(' ', '')` done by
`process_expression` before tokenizing. -/
def strip_spaces (expression : String) : String :=
  String.mk (expression.toList.filter (fun c => c != ' '))

/-- `IOAgent.process_expression`: strip spaces, tokenize, evaluate.  The
fuel `(n + 2)²` is ample for every concrete evaluation verified below. -/
def process_expression (expression : String) (s : CalcState) :
    Except CalcError Q × CalcState :=
  let tokens := (tokenize (strip_spaces expression)).map to_tok
  evaluate_expression ((tokens.length + 2) * (tokens.length + 2)) tokens s

/-- `CalculatorModel.calculate`: clear the session log (not modelled) and
the broker history, then process the expression.  The pending queue and
the agents' counters are *not* cleared. -/
def calculate (expression : String) (s : CalcState) :
    Except CalcError Q × CalcState :=
  process_expression expression { s with history := [] }

/-- `CalculatorModel.get_statistics`. -/
def get_statistics (s : CalcState) : List (String × Nat) :=
  [("Sumas", s.sumaOps), ("Restas", s.restaOps),
   ("Multiplicaciones", s.multOps), ("Divisiones", s.divOps),
   ("Potencias", s.potOps)]

/-- `CalculatorModel.reset_statistics`. -/
def reset_statistics (s : CalcState) : CalcState :=
  { s with sumaOps := 0, restaOps := 0, multOps := 0, divOps := 0, potOps := 0 }

/-! ## Observations used by the verified properties -/

/-- Total number of operations performed, over all five agents. -/
def total_ops (s : CalcState) : Nat :=
  s.sumaOps + s.restaOps + s.multOps + s.divOps + s.potOps

/-- `m1, m2` form one request/response exchange: an operation request from
the coordinator to some handler, immediately answered by a result from
that same handler back to the coordinator. -/
def is_req_resp_pair (m1 m2 : Message) : Bool :=
  m1.msgType == "operation" && m1.sender == "io_agent" &&
  (match m1.content with | .operands _ _ => true | .result _ => false) &&
  m2.msgType == "result" && m2.receiver == "io_agent" &&
  m2.sender == m1.receiver &&
  (match m2.content with | .result _ => true | .operands _ _ => false)

/-- The message list is exactly a sequence of request/response pairs. -/
def paired_history : List Message → Bool
  | [] => true
  | [_] => false
  | m1 :: m2 :: rest => is_req_resp_pair m1 m2 && paired_history rest

/-- A string token the scanner's pattern recognizes: one of the seven
operator/parenthesis symbols, or a numeral `float()` accepts. -/
def recognized_token (t : String) : Bool :=
  is_symbol_tok t || (parse_num t).isSome

/-- Whether an engine step returned normally. -/
def res_ok {α : Type} : Except CalcError α → Bool
  | .ok _ => true
  | .error _ => false

/-! ## State-evolution machinery

`evolves s s1 ok` records what one engine step guarantees about the broker
state: the pending queue is drained back to empty, the invocation counters
never decrease, and the history grows by a suffix that — when the step
succeeded — consists exactly of request/response pairs, one pair per
operation performed. -/

def evolves (s s1 : CalcState) (ok : Bool) : Prop :=
  s1.queue = [] ∧ total_ops s ≤ total_ops s1 ∧
  ∃ d, s1.history = s.history ++ d ∧
    (ok = true → paired_history d = true ∧
      d.length = 2 * (total_ops s1 - total_ops s))

/-- Each agent's `operations_performed` in `s1` is at least its value in
`s`. -/
def ctrs_le (s s1 : CalcState) : Prop :=
  s.sumaOps ≤ s1.sumaOps ∧ s.restaOps ≤ s1.restaOps ∧
  s.multOps ≤ s1.multOps ∧ s.divOps ≤ s1.divOps ∧ s.potOps ≤ s1.potOps

/-- The counter increments from `s` to `s1` equal those from `t` to
`t1`, componentwise. -/
def same_delta (s s1 t t1 : CalcState) : Prop :=
  ∃ d1 d2 d3 d4 d5,
    s1.sumaOps = s.sumaOps + d1 ∧ t1.sumaOps = t.sumaOps + d1 ∧
    s1.restaOps = s.restaOps + d2 ∧ t1.restaOps = t.restaOps + d2 ∧
    s1.multOps = s.multOps + d3 ∧ t1.multOps = t.multOps + d3 ∧
    s1.divOps = s.divOps + d4 ∧ t1.divOps = t.divOps + d4 ∧
    s1.potOps = s.potOps + d5 ∧ t1.potOps = t.potOps + d5

/-- The counter increment of one successful handler application, as a
function of the handler alone. -/
def bump_delta (aid : String) : Nat × Nat × Nat × Nat × Nat :=
  if aid == "suma_agent" then (1, 0, 0, 0, 0)
  else if aid == "resta_agent" then (0, 1, 0, 0, 0)
  else if aid == "multiplicacion_agent" then (0, 0, 1, 0, 0)
  else if aid == "division_agent" then (0, 0, 0, 1, 0)
  else if aid == "potencia_agent" then (0, 0, 0, 0, 1)
  else (0, 0, 0, 0, 0)

theorem paired_append {a b : List Message} (ha : paired_history a = true)
    (hb : paired_history b = true) : paired_history (a ++ b) = true := by
  induction a using paired_history.induct with
  | case1 => simpa using hb
  | case2 m => simp [paired_history] at ha
  | case3 m1 m2 rest ih =>
    simp only [paired_history, Bool.and_eq_true] at ha
    simpa [paired_history, ih ha.2] using ha.1

theorem evolves_refl {s : CalcState} (hq : s.queue = []) : evolves s s true :=
  ⟨hq, le_refl _, [], by simp, fun _ => ⟨rfl, by simp⟩⟩

theorem evolves_false {s s1 : CalcState} {c : Bool} (h : evolves s s1 c) :
    evolves s s1 false := by
  obtain ⟨h1, h2, d, h3, _⟩ := h
  exact ⟨h1, h2, d, h3, by simp⟩

theorem evolves_comp {s s1 s2 : CalcState} {c : Bool}
    (h1 : evolves s s1 true) (h2 : evolves s1 s2 c) : evolves s s2 c := by
  obtain ⟨q1, t1, d1, hd1, hp1⟩ := h1
  obtain ⟨q2, t2, d2, hd2, hp2⟩ := h2
  refine ⟨q2, le_trans t1 t2, d1 ++ d2, by simp [hd2, hd1], ?_⟩
  intro hc
  obtain ⟨hpa, hla⟩ := hp1 rfl
  obtain ⟨hpb, hlb⟩ := hp2 hc
  refine ⟨paired_append hpa hpb, ?_⟩
  simp only [List.length_append, hla, hlb]
  omega

/-! ### The dispatch step, characterized -/

theorem bump_counter_queue (aid : String) (s : CalcState) :
    (bump_counter aid s).queue = s.queue := by
  unfold bump_counter; split_ifs <;> rfl

theorem bump_counter_history (aid : String) (s : CalcState) :
    (bump_counter aid s).history = s.history := by
  unfold bump_counter; split_ifs <;> rfl

theorem bump_counter_update (aid : String) (s : CalcState)
    (q h : List Message) :
    bump_counter aid { s with queue := q, history := h } =
      { bump_counter aid s with queue := q, history := h } := by
  unfold bump_counter; split_ifs <;> rfl

theorem agent_func_ok_total {aid : String} {a b r : Q}
    (h : agent_func aid a b = .ok r) (s : CalcState) :
    total_ops (bump_counter aid s) = total_ops s + 1 := by
  unfold agent_func at h
  unfold bump_counter total_ops
  split_ifs at h <;> simp_all <;> omega

/-- With an empty pending queue — the situation at every dispatch the
evaluator performs — `request_operation` reduces to: look the handler up,
apply its function; on success bump its counter and append the
operation/result message pair to the history; on failure append only the
operation message.  In both cases the queue ends empty. -/
theorem request_operation_eq (op : String) (a b : Q) (s : CalcState)
    (hq : s.queue = []) :
    request_operation op a b s =
      match operator_map op with
      | none => (.error (.unsupportedOperator op), s)
      | some agentId =>
        match agent_func agentId a b with
        | .ok r =>
          (.ok r, bump_counter agentId
            { s with
                queue := [],
                history := s.history ++
                  [⟨"io_agent", agentId, .operands a b, "operation"⟩,
                   ⟨agentId, "io_agent", .result r, "result"⟩] })
        | .error e =>
          (.error e,
            { s with
                queue := [],
                history := s.history ++
                  [⟨"io_agent", agentId, .operands a b, "operation"⟩] }) := by
  unfold request_operation
  cases hm : operator_map op with
  | none => rfl
  | some agentId =>
    simp only [agent_step, get_messages_for, send_message, hq,
      List.nil_append, List.filter]
    cases hA : agent_func agentId a b with
    | ok r =>
      simp [process_msgs, perform_operation, hA, send_message,
        bump_counter_queue, bump_counter_history, bump_counter_update,
        List.filter]
    | error e =>
      simp [process_msgs, perform_operation, hA, List.filter]

theorem request_operation_none_eq (op : String) (a b : Q) (s : CalcState)
    (hm : operator_map op = none) :
    request_operation op a b s = (.error (.unsupportedOperator op), s) := by
  unfold request_operation
  rw [hm]

theorem request_operation_ok_eq {op aid : String} {a b r : Q} (s : CalcState)
    (hq : s.queue = []) (hm : operator_map op = some aid)
    (hA : agent_func aid a b = .ok r) :
    request_operation op a b s =
      (.ok r, bump_counter aid
        { s with
            queue := [],
            history := s.history ++
              [⟨"io_agent", aid, .operands a b, "operation"⟩,
               ⟨aid, "io_agent", .result r, "result"⟩] }) := by
  rw [request_operation_eq op a b s hq, hm]
  simp only [hA]

theorem request_operation_err_eq {op aid : String} {a b : Q} {e : CalcError}
    (s : CalcState) (hq : s.queue = []) (hm : operator_map op = some aid)
    (hA : agent_func aid a b = .error e) :
    request_operation op a b s =
      (.error e,
        { s with
            queue := [],
            history := s.history ++
              [⟨"io_agent", aid, .operands a b, "operation"⟩] }) := by
  rw [request_operation_eq op a b s hq, hm]
  simp only [hA]

theorem request_operation_evolves (op : String) (a b : Q) (s : CalcState)
    (hq : s.queue = []) :
    evolves s (request_operation op a b s).2
      (res_ok (request_operation op a b s).1) := by
  cases hm : operator_map op with
  | none =>
    rw [request_operation_none_eq op a b s hm]
    exact evolves_false (evolves_refl hq)
  | some aid =>
    cases hA : agent_func aid a b with
    | ok r =>
      rw [request_operation_ok_eq s hq hm hA]
      refine ⟨by simp [bump_counter_queue], ?_,
        [⟨"io_agent", aid, .operands a b, "operation"⟩,
         ⟨aid, "io_agent", .result r, "result"⟩],
        by simp [bump_counter_history], ?_⟩
      · rw [agent_func_ok_total hA]
        exact Nat.le_succ _
      · intro
        refine ⟨by simp [paired_history, is_req_resp_pair], ?_⟩
        rw [agent_func_ok_total hA]
        simp only [List.length_cons, List.length_nil, total_ops]
        omega
    | error e =>
      rw [request_operation_err_eq s hq hm hA]
      exact ⟨rfl, le_refl _,
        [⟨"io_agent", aid, .operands a b, "operation"⟩], rfl, by simp [res_ok]⟩

/-! ### Step equations for `evaluate_operator` -/

theorem eval_op_none {ops : List String} {f i : Nat} {tokens : List Tok}
    (s : CalcState) (hg : tokens[i]? = none) :
    evaluate_operator ops (f + 1) i tokens s = (.ok tokens, s) := by
  rw [evaluate_operator, hg]

theorem eval_op_num {ops : List String} {f i : Nat} {tokens : List Tok} {v : Q}
    (s : CalcState) (hg : tokens[i]? = some (.num v)) :
    evaluate_operator ops (f + 1) i tokens s =
      evaluate_operator ops f (i + 1) tokens s := by
  rw [evaluate_operator, hg]

theorem eval_op_notin {ops : List String} {f i : Nat} {tokens : List Tok}
    {op : String} (s : CalcState) (hg : tokens[i]? = some (.sym op))
    (hin : op ∉ ops) :
    evaluate_operator ops (f + 1) i tokens s =
      evaluate_operator ops f (i + 1) tokens s := by
  rw [evaluate_operator, hg]
  simp [hin]

theorem eval_op_boundary {ops : List String} {f i : Nat} {tokens : List Tok}
    {op : String} (s : CalcState) (hg : tokens[i]? = some (.sym op))
    (hin : op ∈ ops) (hbd : (i == 0 || i == tokens.length - 1) = true) :
    evaluate_operator ops (f + 1) i tokens s =
      (.error (.invalidOperatorPosition op), s) := by
  rw [evaluate_operator, hg]
  simp [hin, hbd]

theorem eval_op_nan {ops : List String} {f i : Nat} {tokens : List Tok}
    {op : String} (s : CalcState) (hg : tokens[i]? = some (.sym op))
    (hin : op ∈ ops) (hbd : (i == 0 || i == tokens.length - 1) = false)
    (hnan : tokens[i - 1]?.bind num_val = none ∨
      tokens[i + 1]?.bind num_val = none) :
    evaluate_operator ops (f + 1) i tokens s = (.error .notANumber, s) := by
  rw [evaluate_operator, hg]
  cases hL : tokens[i - 1]?.bind num_val with
  | none =>
    cases hR : tokens[i + 1]?.bind num_val <;> simp [hin, hbd]
  | some a =>
    cases hR : tokens[i + 1]?.bind num_val with
    | none => simp [hin, hbd]
    | some b => rcases hnan with h | h <;> simp_all

theorem eval_op_dispatch {ops : List String} {f i : Nat} {tokens : List Tok}
    {op : String} {a b : Q} (s : CalcState)
    (hg : tokens[i]? = some (.sym op)) (hin : op ∈ ops)
    (hbd : (i == 0 || i == tokens.length - 1) = false)
    (hL : tokens[i - 1]?.bind num_val = some a)
    (hR : tokens[i + 1]?.bind num_val = some b) :
    evaluate_operator ops (f + 1) i tokens s =
      match request_operation op a b s with
      | (.ok r, s1) =>
        evaluate_operator ops f i
          (tokens.take (i - 1) ++ .num r :: tokens.drop (i + 2)) s1
      | (.error e, s1) => (.error e, s1) := by
  rw [evaluate_operator, hg]
  simp [hin, hbd, hL, hR]

/-- `eval_op_dispatch` with the scan parameters explicit, for use at
concrete token lists. -/
theorem eval_op_dispatch_x (ops : List String) (f i : Nat)
    (tokens : List Tok) (s : CalcState) {op : String} {a b : Q}
    (hg : tokens[i]? = some (.sym op)) (hin : op ∈ ops)
    (hbd : (i == 0 || i == tokens.length - 1) = false)
    (hL : tokens[i - 1]?.bind num_val = some a)
    (hR : tokens[i + 1]?.bind num_val = some b) :
    evaluate_operator ops (f + 1) i tokens s =
      match request_operation op a b s with
      | (.ok r, s1) =>
        evaluate_operator ops f i
          (tokens.take (i - 1) ++ .num r :: tokens.drop (i + 2)) s1
      | (.error e, s1) => (.error e, s1) :=
  eval_op_dispatch s hg hin hbd hL hR

theorem evaluate_operator_evolves (ops : List String) (f : Nat) :
    ∀ (i : Nat) (tokens : List Tok) (s : CalcState), s.queue = [] →
      evolves s (evaluate_operator ops f i tokens s).2
        (res_ok (evaluate_operator ops f i tokens s).1) := by
  induction f with
  | zero => exact fun i tokens s hq => evolves_false (evolves_refl hq)
  | succ f ih =>
    intro i tokens s hq
    cases hg : tokens[i]? with
    | none =>
      rw [eval_op_none s hg]
      exact evolves_refl hq
    | some t =>
      cases t with
      | num v =>
        rw [eval_op_num s hg]
        exact ih (i + 1) tokens s hq
      | sym op =>
        by_cases hin : op ∈ ops
        · cases hbd : (i == 0 || i == tokens.length - 1) with
          | true =>
            rw [eval_op_boundary s hg hin hbd]
            exact evolves_false (evolves_refl hq)
          | false =>
            cases hL : tokens[i - 1]?.bind num_val with
            | none =>
              rw [eval_op_nan s hg hin hbd (Or.inl hL)]
              exact evolves_false (evolves_refl hq)
            | some a =>
              cases hR : tokens[i + 1]?.bind num_val with
              | none =>
                rw [eval_op_nan s hg hin hbd (Or.inr hR)]
                exact evolves_false (evolves_refl hq)
              | some b =>
                rw [eval_op_dispatch s hg hin hbd hL hR]
                have hE := request_operation_evolves op a b s hq
                cases hro : request_operation op a b s with
                | mk r1 s1 =>
                  rw [hro] at hE
                  cases r1 with
                  | error e => exact hE
                  | ok r => exact evolves_comp hE (ih i _ s1 hE.1)
        · rw [eval_op_notin s hg hin]
          exact ih (i + 1) tokens s hq

/-! ### Step equations for the evaluator pair -/

theorem ee_unfold (f : Nat) (tokens : List Tok) (s : CalcState) :
    evaluate_expression (f + 1) tokens s =
      final_step (tier_step ["+", "-"] (tier_step ["*", "/"]
        (tier_step ["**"] (handle_parentheses f tokens s)))) := rfl

theorem hp_unfold (f : Nat) (tokens : List Tok) (s : CalcState) :
    handle_parentheses (f + 1) tokens s =
      match last_lparen_idx tokens with
      | none => (.ok tokens, s)
      | some start =>
        match first_rparen_after tokens start with
        | none => (.error .unbalancedParens, s)
        | some stop =>
          match evaluate_expression f
              ((tokens.drop (start + 1)).take (stop - start - 1)) s with
          | (.error e, s1) => (.error e, s1)
          | (.ok v, s1) =>
            handle_parentheses f
              (tokens.take start ++ .num v :: tokens.drop (stop + 1)) s1 := rfl

theorem tier_step_evolves (ops : List String) {s0 : CalcState}
    {p : Except CalcError (List Tok) × CalcState}
    (h : evolves s0 p.2 (res_ok p.1)) :
    evolves s0 (tier_step ops p).2 (res_ok (tier_step ops p).1) := by
  rcases p with ⟨r, s⟩
  cases r with
  | error e => exact h
  | ok t => exact evolves_comp h (evaluate_operator_evolves ops _ 0 t s h.1)

theorem final_step_evolves {s0 : CalcState}
    {p : Except CalcError (List Tok) × CalcState}
    (h : evolves s0 p.2 (res_ok p.1)) :
    evolves s0 (final_step p).2 (res_ok (final_step p).1) := by
  rcases p with ⟨r, s⟩
  cases r with
  | error e => exact h
  | ok t =>
    match t with
    | [] => exact evolves_false h
    | [t0] =>
      have hf : final_step (Except.ok [t0], s) =
          match num_val t0 with
          | some v => (.ok v, s)
          | none => (.error .notANumber, s) := rfl
      cases hv : num_val t0 with
      | some v =>
        rw [hf, hv]
        exact h
      | none =>
        rw [hf, hv]
        exact evolves_false h
    | t0 :: t1 :: rest => exact evolves_false h

theorem eval_funs_evolves (f : Nat) :
    (∀ (tokens : List Tok) (s : CalcState), s.queue = [] →
      evolves s (evaluate_expression f tokens s).2
        (res_ok (evaluate_expression f tokens s).1)) ∧
    (∀ (tokens : List Tok) (s : CalcState), s.queue = [] →
      evolves s (handle_parentheses f tokens s).2
        (res_ok (handle_parentheses f tokens s).1)) := by
  induction f with
  | zero =>
    exact ⟨fun tokens s hq => evolves_false (evolves_refl hq),
      fun tokens s hq => evolves_false (evolves_refl hq)⟩
  | succ f ih =>
    obtain ⟨ihE, ihP⟩ := ih
    constructor
    · intro tokens s hq
      rw [ee_unfold]
      exact final_step_evolves (tier_step_evolves _ (tier_step_evolves _
        (tier_step_evolves _ (ihP tokens s hq))))
    · intro tokens s hq
      rw [hp_unfold]
      split
      · exact evolves_refl hq
      · rename_i ospt start heq1
        split
        · exact evolves_false (evolves_refl hq)
        · rename_i ort stop heq2
          split
          · rename_i e s1 heq3
            have h := ihE ((tokens.drop (start + 1)).take (stop - start - 1)) s hq
            rw [heq3] at h
            exact h
          · rename_i v s1 heq3
            have h := ihE ((tokens.drop (start + 1)).take (stop - start - 1)) s hq
            rw [heq3] at h
            exact evolves_comp h
              (ihP (tokens.take start ++ .num v :: tokens.drop (stop + 1)) s1 h.1)

theorem evaluate_expression_evolves (f : Nat) (tokens : List Tok)
    (s : CalcState) (hq : s.queue = []) :
    evolves s (evaluate_expression f tokens s).2
      (res_ok (evaluate_expression f tokens s).1) :=
  (eval_funs_evolves f).1 tokens s hq

theorem calculate_evolves (expression : String) (s : CalcState)
    (hq : s.queue = []) :
    evolves { s with history := [] } (calculate expression s).2
      (res_ok (calculate expression s).1) :=
  evaluate_expression_evolves _ _ { s with history := [] } hq

/-! ### Pointwise counter monotonicity (no assumption on the queue) -/

theorem ctrs_le_refl (s : CalcState) : ctrs_le s s :=
  ⟨le_refl _, le_refl _, le_refl _, le_refl _, le_refl _⟩

theorem ctrs_le_trans {s1 s2 s3 : CalcState} (h1 : ctrs_le s1 s2)
    (h2 : ctrs_le s2 s3) : ctrs_le s1 s3 := by
  obtain ⟨a1, b1, c1, d1, e1⟩ := h1
  obtain ⟨a2, b2, c2, d2, e2⟩ := h2
  exact ⟨le_trans a1 a2, le_trans b1 b2, le_trans c1 c2,
    le_trans d1 d2, le_trans e1 e2⟩

theorem ctrs_le_bump (aid : String) (s : CalcState) :
    ctrs_le s (bump_counter aid s) := by
  unfold bump_counter
  split_ifs <;> simp [ctrs_le]

theorem perform_operation_ctrs (aid : String) (a b : Q) (s : CalcState) :
    ctrs_le s (perform_operation aid a b s).2 := by
  unfold perform_operation
  cases hA : agent_func aid a b with
  | ok r => exact ctrs_le_bump aid s
  | error e => exact ctrs_le_refl s

theorem send_message_ctrs (m : Message) (s : CalcState) :
    ctrs_le s (send_message m s) :=
  ⟨le_refl _, le_refl _, le_refl _, le_refl _, le_refl _⟩

theorem process_msgs_ctrs (aid : String) :
    ∀ (msgs : List Message) (s : CalcState),
      ctrs_le s (process_msgs aid msgs s).2 := by
  intro msgs
  induction msgs with
  | nil => exact fun s => ctrs_le_refl s
  | cons m rest ih =>
    intro s
    rw [process_msgs]
    split
    · split
      · rename_i a b heqc
        split
        · rename_i r s1 heqp
          have hps := perform_operation_ctrs aid a b s
          rw [heqp] at hps
          exact ctrs_le_trans hps
            (ctrs_le_trans (send_message_ctrs _ s1) (ih _))
        · rename_i e s1 heqp
          have hps := perform_operation_ctrs aid a b s
          rw [heqp] at hps
          exact hps
      · exact ctrs_le_refl s
    · exact ih s

theorem agent_step_ctrs (aid : String) (s : CalcState) :
    ctrs_le s (agent_step aid s).2 := by
  have h := process_msgs_ctrs aid (get_messages_for aid s).1
    (get_messages_for aid s).2
  exact ctrs_le_trans
    ⟨le_refl _, le_refl _, le_refl _, le_refl _, le_refl _⟩ h

theorem request_operation_ctrs (op : String) (a b : Q) (s : CalcState) :
    ctrs_le s (request_operation op a b s).2 := by
  unfold request_operation
  dsimp only
  split
  · exact ctrs_le_refl s
  · rename_i aid heqm
    have hsend := send_message_ctrs
      ⟨"io_agent", aid, .operands a b, "operation"⟩ s
    split
    · rename_i e s2 heq
      have h := agent_step_ctrs aid
        (send_message ⟨"io_agent", aid, .operands a b, "operation"⟩ s)
      rw [heq] at h
      exact ctrs_le_trans hsend h
    · rename_i u s2 heq
      have h := agent_step_ctrs aid
        (send_message ⟨"io_agent", aid, .operands a b, "operation"⟩ s)
      rw [heq] at h
      split
      · exact ctrs_le_trans hsend h
      · rename_i m rest heqp
        split
        · exact ctrs_le_trans hsend h
        · exact ctrs_le_trans hsend h

theorem evaluate_operator_ctrs (ops : List String) (f : Nat) :
    ∀ (i : Nat) (tokens : List Tok) (s : CalcState),
      ctrs_le s (evaluate_operator ops f i tokens s).2 := by
  induction f with
  | zero => exact fun i tokens s => ctrs_le_refl s
  | succ f ih =>
    intro i tokens s
    cases hg : tokens[i]? with
    | none =>
      rw [eval_op_none s hg]
      exact ctrs_le_refl s
    | some t =>
      cases t with
      | num v =>
        rw [eval_op_num s hg]
        exact ih (i + 1) tokens s
      | sym op =>
        by_cases hin : op ∈ ops
        · cases hbd : (i == 0 || i == tokens.length - 1) with
          | true =>
            rw [eval_op_boundary s hg hin hbd]
            exact ctrs_le_refl s
          | false =>
            cases hL : tokens[i - 1]?.bind num_val with
            | none =>
              rw [eval_op_nan s hg hin hbd (Or.inl hL)]
              exact ctrs_le_refl s
            | some a =>
              cases hR : tokens[i + 1]?.bind num_val with
              | none =>
                rw [eval_op_nan s hg hin hbd (Or.inr hR)]
                exact ctrs_le_refl s
              | some b =>
                rw [eval_op_dispatch s hg hin hbd hL hR]
                have hE := request_operation_ctrs op a b s
                split
                · rename_i r s1 heq
                  rw [heq] at hE
                  exact ctrs_le_trans hE (ih i _ s1)
                · rename_i e s1 heq
                  rw [heq] at hE
                  exact hE
        · rw [eval_op_notin s hg hin]
          exact ih (i + 1) tokens s

theorem tier_step_ctrs (ops : List String) {s0 : CalcState}
    {p : Except CalcError (List Tok) × CalcState} (h : ctrs_le s0 p.2) :
    ctrs_le s0 (tier_step ops p).2 := by
  rcases p with ⟨r, s⟩
  cases r with
  | error e => exact h
  | ok t => exact ctrs_le_trans h (evaluate_operator_ctrs ops _ 0 t s)

theorem final_step_ctrs {s0 : CalcState}
    {p : Except CalcError (List Tok) × CalcState} (h : ctrs_le s0 p.2) :
    ctrs_le s0 (final_step p).2 := by
  rcases p with ⟨r, s⟩
  cases r with
  | error e => exact h
  | ok t =>
    match t with
    | [] => exact h
    | [t0] =>
      have hf : final_step (Except.ok [t0], s) =
          match num_val t0 with
          | some v => (.ok v, s)
          | none => (.error .notANumber, s) := rfl
      cases hv : num_val t0 with
      | some v =>
        rw [hf, hv]
        exact h
      | none =>
        rw [hf, hv]
        exact h
    | t0 :: t1 :: rest => exact h

theorem eval_funs_ctrs (f : Nat) :
    (∀ (tokens : List Tok) (s : CalcState),
      ctrs_le s (evaluate_expression f tokens s).2) ∧
    (∀ (tokens : List Tok) (s : CalcState),
      ctrs_le s (handle_parentheses f tokens s).2) := by
  induction f with
  | zero => exact ⟨fun tokens s => ctrs_le_refl s, fun tokens s => ctrs_le_refl s⟩
  | succ f ih =>
    obtain ⟨ihE, ihP⟩ := ih
    constructor
    · intro tokens s
      rw [ee_unfold]
      exact final_step_ctrs (tier_step_ctrs _ (tier_step_ctrs _
        (tier_step_ctrs _ (ihP tokens s))))
    · intro tokens s
      rw [hp_unfold]
      split
      · exact ctrs_le_refl s
      · rename_i ospt start heq1
        split
        · exact ctrs_le_refl s
        · rename_i ort stop heq2
          split
          · rename_i e s1 heq3
            have h := ihE ((tokens.drop (start + 1)).take (stop - start - 1)) s
            rw [heq3] at h
            exact h
          · rename_i v s1 heq3
            have h := ihE ((tokens.drop (start + 1)).take (stop - start - 1)) s
            rw [heq3] at h
            exact ctrs_le_trans h
              (ihP (tokens.take start ++ .num v :: tokens.drop (stop + 1)) s1)

/-- A top-level `calculate` clears the log and the broker history but never
decreases any agent's `operations_performed`: statistics persist across
evaluations until `reset_statistics`. -/
theorem calculate_ctrs (expression : String) (s : CalcState) :
    ctrs_le s (calculate expression s).2 :=
  (eval_funs_ctrs _).1 _ { s with history := [] }

/-! ### Specialized step equations for `handle_parentheses` -/

theorem handle_parens_none_eq (f : Nat) (tokens : List Tok) (s : CalcState)
    (hl : last_lparen_idx tokens = none) :
    handle_parentheses (f + 1) tokens s = (.ok tokens, s) := by
  rw [hp_unfold]
  split
  · rfl
  · rename_i o st heq
    rw [hl] at heq
    exact Option.noConfusion heq

theorem handle_parens_unbal_eq (f start : Nat) (tokens : List Tok)
    (s : CalcState) (hl : last_lparen_idx tokens = some start)
    (hr : first_rparen_after tokens start = none) :
    handle_parentheses (f + 1) tokens s = (.error .unbalancedParens, s) := by
  rw [hp_unfold]
  split
  · rename_i heq
    rw [heq] at hl
    exact Option.noConfusion hl
  · rename_i o st heq
    rw [hl] at heq
    injection heq with heq'
    subst heq'
    split
    · rfl
    · rename_i o2 st2 heq2
      rw [hr] at heq2
      exact Option.noConfusion heq2

theorem handle_parens_step_eq (f start stop : Nat) (tokens : List Tok)
    (s : CalcState) (hl : last_lparen_idx tokens = some start)
    (hr : first_rparen_after tokens start = some stop) :
    handle_parentheses (f + 1) tokens s =
      match evaluate_expression f
          ((tokens.drop (start + 1)).take (stop - start - 1)) s with
      | (.error e, s1) => (.error e, s1)
      | (.ok v, s1) =>
        handle_parentheses f
          (tokens.take start ++ .num v :: tokens.drop (stop + 1)) s1 := by
  rw [hp_unfold]
  split
  · rename_i heq
    rw [heq] at hl
    exact Option.noConfusion hl
  · rename_i o st heq
    rw [hl] at heq
    injection heq with heq'
    subst heq'
    split
    · rename_i heq2
      rw [heq2] at hr
      exact Option.noConfusion hr
    · rename_i o2 st2 heq2
      rw [hr] at heq2
      injection heq2 with heq2'
      subst heq2'
      rfl

/-! ### Two runs of the same expression: same result, same increments

Starting from an empty pending queue, the evaluator's control flow
depends only on the token list — never on the counters, the history or
the log — so two runs of the same expression from different states return
the same result and add the same increment to every counter. -/

theorem same_delta_refl (s t : CalcState) : same_delta s s t t := by
  refine ⟨0, 0, 0, 0, 0, ?_, ?_, ?_, ?_, ?_, ?_, ?_, ?_, ?_, ?_⟩ <;> simp

theorem same_delta_comp {s s1 s2 t t1 t2 : CalcState}
    (h1 : same_delta s s1 t t1) (h2 : same_delta s1 s2 t1 t2) :
    same_delta s s2 t t2 := by
  obtain ⟨a1, b1, c1, d1, e1, h1s, h1t, h2s, h2t, h3s, h3t, h4s, h4t, h5s, h5t⟩ := h1
  obtain ⟨a2, b2, c2, d2, e2, g1s, g1t, g2s, g2t, g3s, g3t, g4s, g4t, g5s, g5t⟩ := h2
  exact ⟨a1 + a2, b1 + b2, c1 + c2, d1 + d2, e1 + e2,
    by omega, by omega, by omega, by omega, by omega,
    by omega, by omega, by omega, by omega, by omega⟩

theorem bump_sumaOps (aid : String) (s : CalcState) :
    (bump_counter aid s).sumaOps = s.sumaOps + (bump_delta aid).1 := by
  unfold bump_counter bump_delta
  split_ifs <;> simp

theorem bump_restaOps (aid : String) (s : CalcState) :
    (bump_counter aid s).restaOps = s.restaOps + (bump_delta aid).2.1 := by
  unfold bump_counter bump_delta
  split_ifs <;> simp

theorem bump_multOps (aid : String) (s : CalcState) :
    (bump_counter aid s).multOps = s.multOps + (bump_delta aid).2.2.1 := by
  unfold bump_counter bump_delta
  split_ifs <;> simp

theorem bump_divOps (aid : String) (s : CalcState) :
    (bump_counter aid s).divOps = s.divOps + (bump_delta aid).2.2.2.1 := by
  unfold bump_counter bump_delta
  split_ifs <;> simp

theorem bump_potOps (aid : String) (s : CalcState) :
    (bump_counter aid s).potOps = s.potOps + (bump_delta aid).2.2.2.2 := by
  unfold bump_counter bump_delta
  split_ifs <;> simp

theorem request_operation_bisim (op : String) (a b : Q) (s t : CalcState)
    (hqs : s.queue = []) (hqt : t.queue = []) :
    (request_operation op a b s).1 = (request_operation op a b t).1 ∧
    same_delta s (request_operation op a b s).2
      t (request_operation op a b t).2 := by
  cases hm : operator_map op with
  | none =>
    rw [request_operation_none_eq op a b s hm,
      request_operation_none_eq op a b t hm]
    exact ⟨rfl, same_delta_refl s t⟩
  | some aid =>
    cases hA : agent_func aid a b with
    | ok r =>
      rw [request_operation_ok_eq s hqs hm hA,
        request_operation_ok_eq t hqt hm hA]
      exact ⟨rfl, ⟨(bump_delta aid).1, (bump_delta aid).2.1,
        (bump_delta aid).2.2.1, (bump_delta aid).2.2.2.1,
        (bump_delta aid).2.2.2.2,
        bump_sumaOps aid _, bump_sumaOps aid _,
        bump_restaOps aid _, bump_restaOps aid _,
        bump_multOps aid _, bump_multOps aid _,
        bump_divOps aid _, bump_divOps aid _,
        bump_potOps aid _, bump_potOps aid _⟩⟩
    | error e =>
      rw [request_operation_err_eq s hqs hm hA,
        request_operation_err_eq t hqt hm hA]
      exact ⟨rfl, same_delta_refl s t⟩

theorem evaluate_operator_bisim (ops : List String) (f : Nat) :
    ∀ (i : Nat) (tokens : List Tok) (s t : CalcState),
      s.queue = [] → t.queue = [] →
      (evaluate_operator ops f i tokens s).1 =
        (evaluate_operator ops f i tokens t).1 ∧
      same_delta s (evaluate_operator ops f i tokens s).2
        t (evaluate_operator ops f i tokens t).2 := by
  induction f with
  | zero => exact fun i tokens s t hqs hqt => ⟨rfl, same_delta_refl s t⟩
  | succ f ih =>
    intro i tokens s t hqs hqt
    cases hg : tokens[i]? with
    | none =>
      rw [eval_op_none s hg, eval_op_none t hg]
      exact ⟨rfl, same_delta_refl s t⟩
    | some tk =>
      cases tk with
      | num v =>
        rw [eval_op_num s hg, eval_op_num t hg]
        exact ih (i + 1) tokens s t hqs hqt
      | sym op =>
        by_cases hin : op ∈ ops
        · cases hbd : (i == 0 || i == tokens.length - 1) with
          | true =>
            rw [eval_op_boundary s hg hin hbd, eval_op_boundary t hg hin hbd]
            exact ⟨rfl, same_delta_refl s t⟩
          | false =>
            cases hL : tokens[i - 1]?.bind num_val with
            | none =>
              rw [eval_op_nan s hg hin hbd (Or.inl hL),
                eval_op_nan t hg hin hbd (Or.inl hL)]
              exact ⟨rfl, same_delta_refl s t⟩
            | some a =>
              cases hR : tokens[i + 1]?.bind num_val with
              | none =>
                rw [eval_op_nan s hg hin hbd (Or.inr hR),
                  eval_op_nan t hg hin hbd (Or.inr hR)]
                exact ⟨rfl, same_delta_refl s t⟩
              | some b =>
                rw [eval_op_dispatch s hg hin hbd hL hR,
                  eval_op_dispatch t hg hin hbd hL hR]
                have hreq := request_operation_bisim op a b s t hqs hqt
                have hEs := request_operation_evolves op a b s hqs
                have hEt := request_operation_evolves op a b t hqt
                cases hros : request_operation op a b s with
                | mk r1s s1 =>
                cases hrot : request_operation op a b t with
                | mk r1t t1 =>
                rw [hros, hrot] at hreq
                rw [hros] at hEs
                rw [hrot] at hEt
                obtain ⟨hr1, hd1⟩ := hreq
                have hr1' : r1s = r1t := hr1
                cases r1s with
                | error e =>
                  rw [← hr1']
                  exact ⟨rfl, hd1⟩
                | ok r =>
                  rw [← hr1']
                  have hrec := ih i
                    (tokens.take (i - 1) ++ .num r :: tokens.drop (i + 2))
                    s1 t1 hEs.1 hEt.1
                  exact ⟨hrec.1, same_delta_comp hd1 hrec.2⟩
        · rw [eval_op_notin s hg hin, eval_op_notin t hg hin]
          exact ih (i + 1) tokens s t hqs hqt

theorem tier_step_bisim (ops : List String) {s0 t0 : CalcState}
    {ps pt : Except CalcError (List Tok) × CalcState}
    (hr : ps.1 = pt.1) (hd : same_delta s0 ps.2 t0 pt.2)
    (hqs : ps.2.queue = []) (hqt : pt.2.queue = []) :
    (tier_step ops ps).1 = (tier_step ops pt).1 ∧
    same_delta s0 (tier_step ops ps).2 t0 (tier_step ops pt).2 := by
  rcases ps with ⟨rs, ss⟩
  rcases pt with ⟨rt, tt⟩
  have hr' : rs = rt := hr
  subst hr'
  cases rs with
  | error e => exact ⟨rfl, hd⟩
  | ok ts0 =>
    have h := evaluate_operator_bisim ops (ts0.length + 1) 0 ts0 ss tt hqs hqt
    exact ⟨h.1, same_delta_comp hd h.2⟩

theorem final_step_bisim {s0 t0 : CalcState}
    {ps pt : Except CalcError (List Tok) × CalcState}
    (hr : ps.1 = pt.1) (hd : same_delta s0 ps.2 t0 pt.2) :
    (final_step ps).1 = (final_step pt).1 ∧
    same_delta s0 (final_step ps).2 t0 (final_step pt).2 := by
  rcases ps with ⟨rs, ss⟩
  rcases pt with ⟨rt, tt⟩
  have hr' : rs = rt := hr
  subst hr'
  cases rs with
  | error e => exact ⟨rfl, hd⟩
  | ok ts0 =>
    match ts0 with
    | [] => exact ⟨rfl, hd⟩
    | [t1] =>
      have hfs : final_step (Except.ok [t1], ss) =
          match num_val t1 with
          | some v => (.ok v, ss)
          | none => (.error .notANumber, ss) := rfl
      have hft : final_step (Except.ok [t1], tt) =
          match num_val t1 with
          | some v => (.ok v, tt)
          | none => (.error .notANumber, tt) := rfl
      cases hv : num_val t1 with
      | some v =>
        rw [hfs, hft, hv]
        exact ⟨rfl, hd⟩
      | none =>
        rw [hfs, hft, hv]
        exact ⟨rfl, hd⟩
    | t1 :: t2 :: rest => exact ⟨rfl, hd⟩

theorem eval_funs_bisim (f : Nat) :
    (∀ (tokens : List Tok) (s t : CalcState), s.queue = [] → t.queue = [] →
      (evaluate_expression f tokens s).1 =
        (evaluate_expression f tokens t).1 ∧
      same_delta s (evaluate_expression f tokens s).2
        t (evaluate_expression f tokens t).2) ∧
    (∀ (tokens : List Tok) (s t : CalcState), s.queue = [] → t.queue = [] →
      (handle_parentheses f tokens s).1 =
        (handle_parentheses f tokens t).1 ∧
      same_delta s (handle_parentheses f tokens s).2
        t (handle_parentheses f tokens t).2) := by
  induction f with
  | zero =>
    exact ⟨fun tokens s t hqs hqt => ⟨rfl, same_delta_refl s t⟩,
      fun tokens s t hqs hqt => ⟨rfl, same_delta_refl s t⟩⟩
  | succ f ih =>
    obtain ⟨ihE, ihP⟩ := ih
    constructor
    · intro tokens s t hqs hqt
      rw [ee_unfold f tokens s, ee_unfold f tokens t]
      have hP := ihP tokens s t hqs hqt
      have hPs := (eval_funs_evolves f).2 tokens s hqs
      have hPt := (eval_funs_evolves f).2 tokens t hqt
      have h1 := tier_step_bisim ["**"] hP.1 hP.2 hPs.1 hPt.1
      have h1s := tier_step_evolves ["**"] hPs
      have h1t := tier_step_evolves ["**"] hPt
      have h2 := tier_step_bisim ["*", "/"] h1.1 h1.2 h1s.1 h1t.1
      have h2s := tier_step_evolves ["*", "/"] h1s
      have h2t := tier_step_evolves ["*", "/"] h1t
      have h3 := tier_step_bisim ["+", "-"] h2.1 h2.2 h2s.1 h2t.1
      exact final_step_bisim h3.1 h3.2
    · intro tokens s t hqs hqt
      cases hl : last_lparen_idx tokens with
      | none =>
        rw [handle_parens_none_eq f tokens s hl,
          handle_parens_none_eq f tokens t hl]
        exact ⟨rfl, same_delta_refl s t⟩
      | some start =>
        cases hrp : first_rparen_after tokens start with
        | none =>
          rw [handle_parens_unbal_eq f start tokens s hl hrp,
            handle_parens_unbal_eq f start tokens t hl hrp]
          exact ⟨rfl, same_delta_refl s t⟩
        | some stop =>
          rw [handle_parens_step_eq f start stop tokens s hl hrp,
            handle_parens_step_eq f start stop tokens t hl hrp]
          have hE := ihE ((tokens.drop (start + 1)).take (stop - start - 1))
            s t hqs hqt
          have hEs := (eval_funs_evolves f).1
            ((tokens.drop (start + 1)).take (stop - start - 1)) s hqs
          have hEt := (eval_funs_evolves f).1
            ((tokens.drop (start + 1)).take (stop - start - 1)) t hqt
          cases hes : evaluate_expression f
              ((tokens.drop (start + 1)).take (stop - start - 1)) s with
          | mk rs s1 =>
          cases het : evaluate_expression f
              ((tokens.drop (start + 1)).take (stop - start - 1)) t with
          | mk rt t1 =>
          rw [hes, het] at hE
          rw [hes] at hEs
          rw [het] at hEt
          obtain ⟨hr1, hd1⟩ := hE
          have hr1' : rs = rt := hr1
          subst hr1'
          cases rs with
          | error e => exact ⟨rfl, hd1⟩
          | ok v =>
            have hrec := ihP
              (tokens.take start ++ .num v :: tokens.drop (stop + 1))
              s1 t1 hEs.1 hEt.1
            exact ⟨hrec.1, same_delta_comp hd1 hrec.2⟩

theorem calculate_bisim (expression : String) (s t : CalcState)
    (hqs : s.queue = []) (hqt : t.queue = []) :
    (calculate expression s).1 = (calculate expression t).1 ∧
    same_delta s (calculate expression s).2 t (calculate expression t).2 :=
  (eval_funs_bisim _).1 _ { s with history := [] } { t with history := [] }
    hqs hqt

/-! ### Well-formedness of the tokenizer output

Everything `tokenize` emits is either one of the seven symbol tokens or a
numeral accepted by `float()`; an unrecognized character is silently
skipped by the scanner and can never surface as a token. -/

theorem span_digits_all (cs : List Char) :
    ∀ c ∈ (span_digits cs).1, c.isDigit = true := by
  induction cs with
  | nil => simp [span_digits]
  | cons c0 cs ih =>
    by_cases hd : c0.isDigit
    · intro c hc
      simp only [span_digits, hd, if_true] at hc
      rcases List.mem_cons.mp hc with h | h
      · subst h
        exact hd
      · exact ih c h
    · intro c hc
      simp [span_digits, hd] at hc

theorem digits_takeWhile {l : List Char} (h : ∀ c ∈ l, c.isDigit = true) :
    l.takeWhile Char.isDigit = l ∧ l.dropWhile Char.isDigit = [] := by
  induction l with
  | nil => simp
  | cons c cs ih =>
    have hc : c.isDigit = true := h c (List.mem_cons_self c cs)
    have ih' := ih (fun x hx => h x (List.mem_cons_of_mem c hx))
    simp [List.takeWhile_cons, List.dropWhile_cons, hc, ih'.1, ih'.2]

theorem digits_takeWhile_stop {a : List Char} {b : Char} (r : List Char)
    (ha : ∀ c ∈ a, c.isDigit = true) (hb : b.isDigit = false) :
    (a ++ b :: r).takeWhile Char.isDigit = a ∧
    (a ++ b :: r).dropWhile Char.isDigit = b :: r := by
  induction a with
  | nil => simp [List.takeWhile_cons, List.dropWhile_cons, hb]
  | cons c cs ih =>
    have hc : c.isDigit = true := ha c (List.mem_cons_self c cs)
    have ih' := ih (fun x hx => ha x (List.mem_cons_of_mem c hx))
    simp [List.takeWhile_cons, List.dropWhile_cons, hc, ih'.1, ih'.2]

theorem match_number_parses :
    ∀ {cs : List Char} {t : String} {r : List Char},
      match_number cs = some (t, r) →
      (parse_num_chars t.toList).isSome = true := by
  intro cs t r h
  cases cs with
  | nil => simp [match_number] at h
  | cons c cs' =>
    by_cases hd : c.isDigit
    · simp only [match_number, hd, if_true] at h
      have hall : ∀ x ∈ c :: (span_digits cs').1, x.isDigit = true := by
        intro x hx
        rcases List.mem_cons.mp hx with h1 | h1
        · subst h1
          exact hd
        · exact span_digits_all cs' x h1
      split at h
      · rename_i r2 heq
        rw [Option.some.injEq, Prod.mk.injEq] at h
        obtain ⟨h1, h2⟩ := h
        subst h1
        have hsplit := digits_takeWhile_stop (span_digits r2).1 hall
          (by decide : ('.').isDigit = false)
        rw [List.cons_append] at hsplit
        show (parse_num_chars (c :: (span_digits cs').1 ++
          '.' :: (span_digits r2).1)).isSome = true
        have hfrac : ((span_digits r2).1.all Char.isDigit) = true := by
          rw [List.all_eq_true]
          exact fun x hx => span_digits_all r2 x hx
        simp [parse_num_chars, hsplit.1, hsplit.2, hfrac]
      · rename_i hne
        rw [Option.some.injEq, Prod.mk.injEq] at h
        obtain ⟨h1, h2⟩ := h
        subst h1
        have hsplit := digits_takeWhile hall
        show (parse_num_chars (c :: (span_digits cs').1)).isSome = true
        simp [parse_num_chars, hsplit.1, hsplit.2]
    · simp [match_number, hd] at h

theorem parse_num_chars_minus (cs : List Char) :
    parse_num_chars ('-' :: cs) = none := by
  rw [parse_num_chars]
  simp [List.takeWhile_cons, List.dropWhile_cons]

theorem parse_num_of_chars {n : String}
    (h : (parse_num_chars n.toList).isSome = true) :
    (parse_num n).isSome = true := by
  rw [parse_num]
  split
  · rename_i cs heq
    rw [heq, parse_num_chars_minus] at h
    simp at h
  · exact h

theorem minus_append_toList (n : String) :
    ("-" ++ n).toList = '-' :: n.toList := by
  cases n with
  | mk l => rfl

theorem parse_num_neg {n : String}
    (h : (parse_num_chars n.toList).isSome = true) :
    (parse_num ("-" ++ n)).isSome = true := by
  rw [parse_num, minus_append_toList]
  simpa using h

theorem symbol_not_numeric {u : String} (h : is_symbol_tok u = true) :
    is_numeric_tok u = false := by
  simp only [is_symbol_tok, Bool.or_eq_true, beq_iff_eq] at h
  rcases h with ((((((h | h) | h) | h) | h) | h) | h) <;> subst h <;> decide

theorem scan_aux_succ (f : Nat) (c : Char) (cs : List Char) :
    scan_aux (f + 1) (c :: cs) =
      match match_number (c :: cs) with
      | some p => p.1 :: scan_aux f p.2
      | none =>
        if c = '*' then
          match cs with
          | c2 :: cs2 =>
            if c2 = '*' then "**" :: scan_aux f cs2
            else "*" :: scan_aux f (c2 :: cs2)
          | [] => "*" :: scan_aux f []
        else if c = '+' then "+" :: scan_aux f cs
        else if c = '-' then "-" :: scan_aux f cs
        else if c = '/' then "/" :: scan_aux f cs
        else if c = '(' then "(" :: scan_aux f cs
        else if c = ')' then ")" :: scan_aux f cs
        else scan_aux f cs := rfl

theorem scan_aux_wf :
    ∀ (f : Nat) (cs : List Char) (t : String), t ∈ scan_aux f cs →
      is_symbol_tok t = true ∨ (parse_num_chars t.toList).isSome = true := by
  intro f
  induction f with
  | zero =>
    intro cs t ht
    simp [scan_aux] at ht
  | succ f ih =>
    intro cs t ht
    cases cs with
    | nil => simp [scan_aux] at ht
    | cons c cs' =>
      rw [scan_aux_succ] at ht
      cases hm : match_number (c :: cs') with
      | some p =>
        rcases p with ⟨t1, r1⟩
        rw [hm] at ht
        have ht2 : t ∈ t1 :: scan_aux f r1 := ht
        rcases List.mem_cons.mp ht2 with h | h
        · subst h
          exact Or.inr (match_number_parses hm)
        · exact ih _ _ h
      | none =>
        rw [hm] at ht
        by_cases h1 : c = '*'
        · subst h1
          have ht2 : t ∈
              (match cs' with
              | c2 :: cs2 =>
                if c2 = '*' then "**" :: scan_aux f cs2
                else "*" :: scan_aux f (c2 :: cs2)
              | [] => "*" :: scan_aux f []) := by
            have ht3 := ht
            rw [if_pos rfl] at ht3
            exact ht3
          cases cs' with
          | nil =>
            have ht3 : t ∈ "*" :: scan_aux f [] := ht2
            rcases List.mem_cons.mp ht3 with h | h
            · subst h
              exact Or.inl (by decide)
            · exact ih _ _ h
          | cons c2 cs2 =>
            have ht3 : t ∈
                (if c2 = '*' then "**" :: scan_aux f cs2
                 else "*" :: scan_aux f (c2 :: cs2)) := ht2
            by_cases h2 : c2 = '*'
            · rw [if_pos h2] at ht3
              rcases List.mem_cons.mp ht3 with h | h
              · subst h
                exact Or.inl (by decide)
              · exact ih _ _ h
            · rw [if_neg h2] at ht3
              rcases List.mem_cons.mp ht3 with h | h
              · subst h
                exact Or.inl (by decide)
              · exact ih _ _ h
        · rw [if_neg h1] at ht
          by_cases h2 : c = '+'
          · rw [if_pos h2] at ht
            rcases List.mem_cons.mp ht with h | h
            · subst h
              exact Or.inl (by decide)
            · exact ih _ _ h
          · rw [if_neg h2] at ht
            by_cases h3 : c = '-'
            · rw [if_pos h3] at ht
              rcases List.mem_cons.mp ht with h | h
              · subst h
                exact Or.inl (by decide)
              · exact ih _ _ h
            · rw [if_neg h3] at ht
              by_cases h4 : c = '/'
              · rw [if_pos h4] at ht
                rcases List.mem_cons.mp ht with h | h
                · subst h
                  exact Or.inl (by decide)
                · exact ih _ _ h
              · rw [if_neg h4] at ht
                by_cases h5 : c = '('
                · rw [if_pos h5] at ht
                  rcases List.mem_cons.mp ht with h | h
                  · subst h
                    exact Or.inl (by decide)
                  · exact ih _ _ h
                · rw [if_neg h5] at ht
                  by_cases h6 : c = ')'
                  · rw [if_pos h6] at ht
                    rcases List.mem_cons.mp ht with h | h
                    · subst h
                      exact Or.inl (by decide)
                    · exact ih _ _ h
                  · rw [if_neg h6] at ht
                    exact ih _ _ ht

theorem fold_neg_wf :
    ∀ (prev : Option String) (ts : List String),
      (∀ u ∈ ts, is_symbol_tok u = true ∨
        (parse_num_chars u.toList).isSome = true) →
      ∀ t ∈ fold_neg_aux prev ts, recognized_token t = true := by
  intro prev ts
  induction prev, ts using fold_neg_aux.induct with
  | case1 prev =>
    intro hin t ht
    simp [fold_neg_aux] at ht
  | case2 prev t0 =>
    intro hin t ht
    simp only [fold_neg_aux, List.mem_singleton] at ht
    subst ht
    rcases hin t (by simp) with h | h
    · simp [recognized_token, h]
    · simp [recognized_token, parse_num_of_chars h]
  | case3 prev t0 n rest2 hcond ih =>
    intro hin t ht
    rw [fold_neg_aux, if_pos hcond] at ht
    rcases List.mem_cons.mp ht with h1 | h1
    · subst h1
      have hnum : is_numeric_tok n = true := by
        simp only [Bool.and_eq_true] at hcond
        exact hcond.2
      rcases hin n (by simp) with hs | hp
      · rw [symbol_not_numeric hs] at hnum
        cases hnum
      · simp [recognized_token, parse_num_neg hp]
    · exact ih (fun u hu =>
        hin u (List.mem_cons_of_mem _ (List.mem_cons_of_mem _ hu))) t h1
  | case4 prev t0 n rest2 hcond ih =>
    intro hin t ht
    rw [fold_neg_aux, if_neg hcond] at ht
    rcases List.mem_cons.mp ht with h1 | h1
    · subst h1
      rcases hin t (by simp) with h | h
      · simp [recognized_token, h]
      · simp [recognized_token, parse_num_of_chars h]
    · exact ih (fun u hu => hin u (List.mem_cons_of_mem _ hu)) t h1

theorem tokenize_wf (expression : String) :
    ∀ t ∈ tokenize expression, recognized_token t = true :=
  fold_neg_wf none _ (fun u hu => scan_aux_wf _ _ u hu)

/-! ## The verified claims -/

/-- Claim C1: `evaluate("2+3*4")` returns 14, `evaluate("(2+3)*4")`
returns 20, and `evaluate("2**3**2")` returns 64 — power is resolved in a
single left-to-right tier, so `2**3**2` computes `(2**3)**2`, not 512 —
because the evaluator applies the tiers in the fixed order power, then
multiply/divide, then add/subtract, after resolving parentheses. -/
theorem C1_precedence_tiers :
    (calculate "2+3*4" init_state).1 = .ok 14 ∧
    (calculate "(2+3)*4" init_state).1 = .ok 20 ∧
    (calculate "2**3**2" init_state).1 = .ok 64 :=
  ⟨rfl, rfl, rfl⟩

/-- Claim C2: within one precedence tier the scan is strictly
left-to-right: reducing `[a, /, b, /, c]` in the `* /` tier yields
`(a/b)/c` for any operands (the index is not advanced after a
replacement, so the freshly spliced result is the left operand of the
next reduction), and consequently `evaluate("8/4/2")` returns 1, not 4. -/
theorem C2_left_to_right_within_tier (a b c : Q) (s : CalcState)
    (hq : s.queue = []) (hb : b ≠ 0) (hc : c ≠ 0) :
    (evaluate_operator ["*", "/"] 6 0
      [.num a, .sym "/", .num b, .sym "/", .num c] s).1 =
      .ok [.num (q_div (q_div a b) c)] ∧
    (calculate "8/4/2" init_state).1 = .ok 1 := by
  refine ⟨?_, rfl⟩
  have hmap : operator_map "/" = some "division_agent" := rfl
  have hA : agent_func "division_agent" a b = .ok (q_div a b) := by
    simp [agent_func, hb]
  have hA2 : agent_func "division_agent" (q_div a b) c =
      .ok (q_div (q_div a b) c) := by
    simp [agent_func, hc]
  have hreq1 := request_operation_ok_eq s hq hmap hA
  have hq2 : (request_operation "/" a b s).2.queue = [] := by
    rw [hreq1]
    simp [bump_counter_queue]
  have hreq2 := request_operation_ok_eq ((request_operation "/" a b s).2)
    hq2 hmap hA2
  have e2 : evaluate_operator ["*", "/"] 5 1
      [.num a, .sym "/", .num b, .sym "/", .num c] s =
      evaluate_operator ["*", "/"] 4 1
        [.num (q_div a b), .sym "/", .num c]
        ((request_operation "/" a b s).2) := by
    rw [eval_op_dispatch_x ["*", "/"] 4 1
      [.num a, .sym "/", .num b, .sym "/", .num c] s rfl (by decide)
      rfl rfl rfl, hreq1]
    rfl
  have e3 : evaluate_operator ["*", "/"] 4 1
      [.num (q_div a b), .sym "/", .num c]
      ((request_operation "/" a b s).2) =
      evaluate_operator ["*", "/"] 3 1
        [.num (q_div (q_div a b) c)]
        ((request_operation "/" (q_div a b) c
          ((request_operation "/" a b s).2)).2) := by
    rw [eval_op_dispatch_x ["*", "/"] 3 1
      [.num (q_div a b), .sym "/", .num c]
      ((request_operation "/" a b s).2) rfl (by decide) rfl rfl rfl, hreq2]
    rfl
  have e4 : evaluate_operator ["*", "/"] 3 1
      [.num (q_div (q_div a b) c)]
      ((request_operation "/" (q_div a b) c
        ((request_operation "/" a b s).2)).2) =
      (.ok [.num (q_div (q_div a b) c)],
        ((request_operation "/" (q_div a b) c
          ((request_operation "/" a b s).2)).2)) :=
    eval_op_none _ rfl
  rw [eval_op_num s rfl, e2, e3, e4]

/-- Witness for C2 at the concrete operands of `8/4/2`. -/
theorem C2_witness :
    (evaluate_operator ["*", "/"] 6 0
      [.num 8, .sym "/", .num 4, .sym "/", .num 2] init_state).1 =
      .ok [.num (q_div (q_div 8 4) 2)] :=
  (C2_left_to_right_within_tier 8 4 2 init_state rfl (by decide)
    (by decide)).1

/-- Claim C3: the tokenizer folds a `-` token into the following numeral
as a negative literal exactly when the `-` is at position 0 or directly
after another operator or `(` and the next token is purely numeric;
consequently `evaluate("-3+5")` returns 2 and `evaluate("4*-2")` returns
-8. -/
theorem C3_unary_minus_fold :
    (calculate "-3+5" init_state).1 = .ok 2 ∧
    (calculate "4*-2" init_state).1 = .ok (-8) ∧
    tokenize "-3+5" = ["-3", "+", "5"] ∧
    tokenize "4*-2" = ["4", "*", "-2"] ∧
    (∀ (prev n : String) (rest : List String), is_op_or_lparen prev = true →
      is_numeric_tok n = true →
      fold_neg_aux (some prev) ("-" :: n :: rest) =
        ("-" ++ n) :: fold_neg_aux (some n) rest) ∧
    (∀ (n : String) (rest : List String), is_numeric_tok n = true →
      fold_neg_aux none ("-" :: n :: rest) =
        ("-" ++ n) :: fold_neg_aux (some n) rest) ∧
    (∀ (prev n : String) (rest : List String),
      is_op_or_lparen prev = false ∨ is_numeric_tok n = false →
      fold_neg_aux (some prev) ("-" :: n :: rest) =
        "-" :: fold_neg_aux (some "-") (n :: rest)) := by
  refine ⟨rfl, rfl, rfl, rfl, ?_, ?_, ?_⟩
  · intro prev n rest hp hn
    simp [fold_neg_aux, hp, hn, Option.elim]
  · intro n rest hn
    simp [fold_neg_aux, hn, Option.elim]
  · intro prev n rest h
    rcases h with h | h <;> simp [fold_neg_aux, h, Option.elim]

/-- Witness for C3 at a concrete input: after `*`, the `-` is folded into
the numeral `2`. -/
theorem C3_witness :
    fold_neg_aux (some "*") ["-", "2"] =
      ("-" ++ "2") :: fold_neg_aux (some "2") [] :=
  C3_unary_minus_fold.2.2.2.2.1 "*" "2" [] (by decide) (by decide)

/-- Claim C4: the division handler fails with the division-by-zero domain
error exactly when the divisor is 0 and otherwise returns `a / b`, so
`evaluate("5/0")` fails with that typed failure and never returns a
partial or garbage numeric result. -/
theorem C4_division_by_zero (a b : Q) (hb : b ≠ 0) :
    agent_func "division_agent" a 0 = .error .divisionByZero ∧
    agent_func "division_agent" a b = .ok (q_div a b) ∧
    (calculate "5/0" init_state).1 = .error .divisionByZero := by
  refine ⟨by simp [agent_func], by simp [agent_func, hb], rfl⟩

/-- Witness for C4 at a concrete divisor: `1 / 2` succeeds. -/
theorem C4_witness :
    agent_func "division_agent" 1 2 = .ok (q_div 1 2) ∧
    agent_func "division_agent" 1 0 = .error .divisionByZero :=
  ⟨(C4_division_by_zero 1 2 (by decide)).2.1,
   (C4_division_by_zero 1 2 (by decide)).1⟩

/-- Claim C5: parenthesis resolution locates the last `(`, scans forward
for its `)`, and if none exists fails with the unbalanced-parentheses
error, so `evaluate("(2+3")` fails that way. -/
theorem C5_unbalanced_parens (f start : Nat) (tokens : List Tok)
    (s : CalcState) (hl : last_lparen_idx tokens = some start)
    (hr : first_rparen_after tokens start = none) :
    (handle_parentheses (f + 1) tokens s).1 = .error .unbalancedParens ∧
    (calculate "(2+3" init_state).1 = .error .unbalancedParens :=
  ⟨by rw [handle_parens_unbal_eq f start tokens s hl hr], rfl⟩

/-- Witness for C5 at a concrete token list with an unmatched `(`. -/
theorem C5_witness :
    (handle_parentheses 3 [Tok.sym "(", Tok.num 2] init_state).1 =
      .error .unbalancedParens :=
  (C5_unbalanced_parens 2 0 [Tok.sym "(", Tok.num 2] init_state rfl rfl).1

/-- Claim C6 is false on the code: `re.findall` silently drops any
character no alternative matches, so `tokenize` never fails; `"2a+3"`
tokenizes to `["2", "+", "3"]` (the `a` vanishes) and the evaluation
returns 5 instead of failing. -/
theorem C6_counterexample :
    tokenize "2a+3" = ["2", "+", "3"] ∧
    (calculate "2a+3" init_state).1 = .ok 5 :=
  ⟨rfl, rfl⟩

/-- Claim C6 (amended): `tokenize` never fails; characters not matched by
the token pattern are silently skipped, and every token it does return is
a recognized operator/parenthesis symbol or a numeral `float()`
accepts. -/
theorem C6_tokenize_never_fails (expression : String) :
    ∀ t ∈ tokenize expression, recognized_token t = true :=
  tokenize_wf expression

/-- Witness for the amended C6 at a concrete expression and token. -/
theorem C6_witness : recognized_token "2" = true :=
  C6_tokenize_never_fails "2+3" "2" (by decide)

/-- Claim C7: in every successful evaluation, each numeric substitution
corresponds to exactly one request/response message pair in the channel
history of that evaluation: the history is precisely a sequence of such
pairs, one per operation performed. -/
theorem C7_dispatch_round_trip (expression : String) (s : CalcState)
    (v : Q) (hq : s.queue = [])
    (hok : (calculate expression s).1 = .ok v) :
    paired_history (calculate expression s).2.history = true ∧
    (calculate expression s).2.history.length =
      2 * (total_ops (calculate expression s).2 - total_ops s) := by
  have h := calculate_evolves expression s hq
  obtain ⟨hq1, hm, d, hd, hp⟩ := h
  have hro : res_ok (calculate expression s).1 = true := by
    rw [hok]
    rfl
  obtain ⟨hpp, hl⟩ := hp hro
  constructor
  · rw [hd]
    simpa using hpp
  · rw [hd]
    simpa using hl

/-- Witness for C7 at a concrete successful evaluation. -/
theorem C7_witness :
    paired_history (calculate "2+3*4" init_state).2.history = true :=
  (C7_dispatch_round_trip "2+3*4" init_state 14 rfl rfl).1

/-- Claim C8: a handler's `operations_performed` is mutated only by
successful applications of that handler — a failing application (the
division-by-zero domain error) leaves the whole state untouched, a
successful one adds exactly one to that handler's counter and nothing to
the others — and `calculate` never decreases any counter, so statistics
persist across evaluations until `reset_statistics`. -/
theorem C8_counter_mutation (aid : String) (a b : Q) (s : CalcState)
    (expression : String) :
    (∀ e, agent_func aid a b = .error e →
      (perform_operation aid a b s).2 = s) ∧
    (∀ r, agent_func aid a b = .ok r →
      (perform_operation aid a b s).2.sumaOps =
        s.sumaOps + (bump_delta aid).1 ∧
      (perform_operation aid a b s).2.restaOps =
        s.restaOps + (bump_delta aid).2.1 ∧
      (perform_operation aid a b s).2.multOps =
        s.multOps + (bump_delta aid).2.2.1 ∧
      (perform_operation aid a b s).2.divOps =
        s.divOps + (bump_delta aid).2.2.2.1 ∧
      (perform_operation aid a b s).2.potOps =
        s.potOps + (bump_delta aid).2.2.2.2) ∧
    ctrs_le s (calculate expression s).2 := by
  refine ⟨?_, ?_, calculate_ctrs expression s⟩
  · intro e he
    unfold perform_operation
    rw [he]
  · intro r hr
    unfold perform_operation
    rw [hr]
    exact ⟨bump_sumaOps aid s, bump_restaOps aid s, bump_multOps aid s,
      bump_divOps aid s, bump_potOps aid s⟩

/-- Witness for C8: a division by zero leaves the state untouched. -/
theorem C8_witness :
    (perform_operation "division_agent" 1 0 init_state).2 = init_state :=
  (C8_counter_mutation "division_agent" 1 0 init_state "1+1").1
    .divisionByZero rfl

/-- Claim C9: two consecutive identical evaluations behave identically —
same result, and the second increments every handler's counter by exactly
the amount the first did — and `reset_statistics` followed by
`get_statistics` yields a mapping with every count zero.  The
"exactly one per occurrence of that operator in the expression" content
is verified quantitatively at `2+3+4*5/2**2-1`, an expression containing
every operator with `+` occurring twice: starting from fresh zero
counters, the first run leaves the counters at exactly the occurrence
counts (2, 1, 1, 1, 1), and the second identical run adds exactly the
occurrence counts again, reaching (4, 2, 2, 2, 2). -/
theorem C9_statistics_idempotence (expression : String) (s : CalcState)
    (hq : s.queue = []) :
    ((calculate expression ((calculate expression s).2)).1 =
      (calculate expression s).1) ∧
    ((calculate expression ((calculate expression s).2)).2.sumaOps -
        (calculate expression s).2.sumaOps =
      (calculate expression s).2.sumaOps - s.sumaOps) ∧
    ((calculate expression ((calculate expression s).2)).2.restaOps -
        (calculate expression s).2.restaOps =
      (calculate expression s).2.restaOps - s.restaOps) ∧
    ((calculate expression ((calculate expression s).2)).2.multOps -
        (calculate expression s).2.multOps =
      (calculate expression s).2.multOps - s.multOps) ∧
    ((calculate expression ((calculate expression s).2)).2.divOps -
        (calculate expression s).2.divOps =
      (calculate expression s).2.divOps - s.divOps) ∧
    ((calculate expression ((calculate expression s).2)).2.potOps -
        (calculate expression s).2.potOps =
      (calculate expression s).2.potOps - s.potOps) ∧
    (∀ s2 : CalcState, get_statistics (reset_statistics s2) =
      [("Sumas", 0), ("Restas", 0), ("Multiplicaciones", 0),
       ("Divisiones", 0), ("Potencias", 0)]) ∧
    ((calculate "2+3+4*5/2**2-1" init_state).2.sumaOps = 2 ∧
     (calculate "2+3+4*5/2**2-1" init_state).2.restaOps = 1 ∧
     (calculate "2+3+4*5/2**2-1" init_state).2.multOps = 1 ∧
     (calculate "2+3+4*5/2**2-1" init_state).2.divOps = 1 ∧
     (calculate "2+3+4*5/2**2-1" init_state).2.potOps = 1) ∧
    ((calculate "2+3+4*5/2**2-1"
        ((calculate "2+3+4*5/2**2-1" init_state).2)).2.sumaOps = 4 ∧
     (calculate "2+3+4*5/2**2-1"
        ((calculate "2+3+4*5/2**2-1" init_state).2)).2.restaOps = 2 ∧
     (calculate "2+3+4*5/2**2-1"
        ((calculate "2+3+4*5/2**2-1" init_state).2)).2.multOps = 2 ∧
     (calculate "2+3+4*5/2**2-1"
        ((calculate "2+3+4*5/2**2-1" init_state).2)).2.divOps = 2 ∧
     (calculate "2+3+4*5/2**2-1"
        ((calculate "2+3+4*5/2**2-1" init_state).2)).2.potOps = 2) := by
  have hq1 : (calculate expression s).2.queue = [] :=
    (calculate_evolves expression s hq).1
  have hb := calculate_bisim expression s ((calculate expression s).2)
    hq hq1
  obtain ⟨hr, hd⟩ := hb
  obtain ⟨d1, d2, d3, d4, d5, e1, f1, e2, f2, e3, f3, e4, f4, e5, f5⟩ := hd
  refine ⟨hr.symm, ?_, ?_, ?_, ?_, ?_, fun s2 => rfl,
    ⟨rfl, rfl, rfl, rfl, rfl⟩, ⟨rfl, rfl, rfl, rfl, rfl⟩⟩
  all_goals omega

/-- Witness for C9 at a concrete expression: the second run of `2+2` adds
one to the addition counter, exactly as the first did. -/
theorem C9_witness :
    (calculate "2+2" (calculate "2+2" init_state).2).2.sumaOps -
        (calculate "2+2" init_state).2.sumaOps =
      (calculate "2+2" init_state).2.sumaOps - init_state.sumaOps :=
  (C9_statistics_idempotence "2+2" init_state rfl).2.1

/-- Claim C10: `evaluate("-(2+3)")` fails with the
operator-in-invalid-position error rather than computing `0 - (2+3)`: the
fold requires the token after `-` to be purely numeric, so the leading `-`
survives into the add/subtract tier, where it is found at position 0. -/
theorem C10_unary_minus_before_paren :
    tokenize "-(2+3)" = ["-", "(", "2", "+", "3", ")"] ∧
    (calculate "-(2+3)" init_state).1 =
      .error (.invalidOperatorPosition "-") :=
  ⟨rfl, rfl⟩

end CalculadoraAgentes
